/-
Verification development for the xml_structer repository (shape-only XML
structure grouping).  The definitions below are a shallow embedding of the
Rust sources:

  * src/processor/xml_struct.rs      (XmlStructure, SkeletonSignature,
                                      StructureGroup, ProcessingResult,
                                      the custom Hash impl)
  * src/processor/struct_processor.rs (process_single_file, process_xml_files)

Machine integers are modelled as Nat with explicit reduction modulo 2^64.
Rust's DefaultHasher (SipHash-1-3 with both keys zero) is implemented
bit-for-bit; `String` hashing follows Rust std: the UTF-8 bytes of the
string followed by a 0xFF terminator byte.

Rust's BTreeMap<String, _> is modelled as a list of entries kept sorted by
key (String order in Lean is lexicographic by code point, which coincides
with Rust's byte-wise order because UTF-8 preserves code-point order).
Rust's HashMap<u64, StructureGroup> is modelled as an association list in
insertion order; its arbitrary iteration order is modelled by quantifying
over permutations of the entry list where it matters.
-/
import Mathlib

namespace XmlStructer

/-- UTF-8 encoding of one unicode scalar value, as byte values. -/
def utf8Char (c : Char) : List Nat :=
  let n := c.toNat
  if n < 0x80 then [n]
  else if n < 0x800 then
    [0xC0 ||| (n >>> 6), 0x80 ||| (n &&& 0x3F)]
  else if n < 0x10000 then
    [0xE0 ||| (n >>> 12), 0x80 ||| ((n >>> 6) &&& 0x3F), 0x80 ||| (n &&& 0x3F)]
  else
    [0xF0 ||| (n >>> 18), 0x80 ||| ((n >>> 12) &&& 0x3F),
     0x80 ||| ((n >>> 6) &&& 0x3F), 0x80 ||| (n &&& 0x3F)]

/-- UTF-8 byte sequence of a string (what Rust feeds to the hasher). -/
def utf8Bytes (s : String) : List Nat :=
  (s.data.map utf8Char).flatten

/-- The modulus for 64-bit arithmetic. -/
def m64 : Nat := 2 ^ 64

/-- 64-bit left rotation. -/
def rotl64 (x n : Nat) : Nat :=
  ((x <<< n) % m64) ||| (x >>> (64 - n))

/-- One SipHash round (SIPROUND), on the four 64-bit state words. -/
def sipRound : Nat × Nat × Nat × Nat → Nat × Nat × Nat × Nat
  | (v0, v1, v2, v3) =>
    let v0 := (v0 + v1) % m64
    let v1 := rotl64 v1 13
    let v1 := Nat.xor v1 v0
    let v0 := rotl64 v0 32
    let v2 := (v2 + v3) % m64
    let v3 := rotl64 v3 16
    let v3 := Nat.xor v3 v2
    let v0 := (v0 + v3) % m64
    let v3 := rotl64 v3 21
    let v3 := Nat.xor v3 v0
    let v2 := (v2 + v1) % m64
    let v1 := rotl64 v1 17
    let v1 := Nat.xor v1 v2
    let v2 := rotl64 v2 32
    (v0, v1, v2, v3)

/-- Absorb one 8-byte message word (SipHash-1-3: one compression round). -/
def sipCompress (v : Nat × Nat × Nat × Nat) (m : Nat) : Nat × Nat × Nat × Nat :=
  let (v0, v1, v2, v3) := v
  let v3 := Nat.xor v3 m
  let (v0, v1, v2, v3) := sipRound (v0, v1, v2, v3)
  (Nat.xor v0 m, v1, v2, v3)

/-- Little-endian value of a byte list (first byte is least significant). -/
def le64 (bs : List Nat) : Nat :=
  bs.foldr (fun b acc => b + 256 * acc) 0

/-- Consume the message eight bytes at a time; the final (short) block is
padded with the total message length in the top byte, then three
finalization rounds are applied (SipHash-1-3). -/
def sip13Go (v : Nat × Nat × Nat × Nat) (len : Nat) : List Nat → Nat
  | b0 :: b1 :: b2 :: b3 :: b4 :: b5 :: b6 :: b7 :: rest =>
      sip13Go (sipCompress v (le64 [b0, b1, b2, b3, b4, b5, b6, b7])) len rest
  | rest =>
      let b := ((len % 256) <<< 56) ||| le64 rest
      let (v0, v1, v2, v3) := sipCompress v b
      let v2 := Nat.xor v2 0xff
      let (v0, v1, v2, v3) := sipRound (sipRound (sipRound (v0, v1, v2, v3)))
      Nat.xor (Nat.xor v0 v1) (Nat.xor v2 v3)

/-- SipHash-1-3 with both keys zero: exactly Rust's
std::collections::hash_map::DefaultHasher over the given byte stream. -/
def sip13 (msg : List Nat) : Nat :=
  sip13Go (0x736f6d6570736575, 0x646f72616e646f6d,
           0x6c7967656e657261, 0x7465646279746573) msg.length msg

/-- The full structural tree of an XML element (xml_struct.rs, XmlStructure).
`attributes` models `Option<BTreeMap<String, ()>>`: when present it is the
list of attribute keys in sorted order. -/
inductive XmlStructure : Type where
  | mk (name : String) (attributes : Option (List String))
       (children : List XmlStructure)

namespace XmlStructure

def name : XmlStructure → String
  | mk n _ _ => n

def attributes : XmlStructure → Option (List String)
  | mk _ a _ => a

def children : XmlStructure → List XmlStructure
  | mk _ _ c => c

end XmlStructure

mutual

/-- The byte stream fed to the hasher by `impl Hash for XmlStructure`
(xml_struct.rs lines 225-241): the name, then every attribute key in
sorted order, then each child recursively.  Rust hashes a string as its
UTF-8 bytes followed by a 0xFF terminator; no other separators are
written between the name section, the attribute section and the child
section. -/
def hashStream : XmlStructure → List Nat
  | .mk n attrs cs =>
    utf8Bytes n ++ [0xFF]
      ++ (match attrs with
          | some as => (as.map (fun k => utf8Bytes k ++ [0xFF])).flatten
          | none => [])
      ++ hashStreamList cs

/-- Concatenated hash streams of a list of children, in order. -/
def hashStreamList : List XmlStructure → List Nat
  | [] => []
  | c :: rest => hashStream c ++ hashStreamList rest

end

/-- `XmlStructure::structure_hash` (xml_struct.rs lines 217-222): run
DefaultHasher over the Hash-impl byte stream. -/
def structureHash (x : XmlStructure) : Nat :=
  sip13 (hashStream x)

/-- Rust orders `String` keys byte-lexicographically; on UTF-8 this is the
same as lexicographic comparison of the code points, modelled here directly
on the character lists. -/
def charListLt : List Char → List Char → Bool
  | _, [] => false
  | [], _ :: _ => true
  | a :: as, b :: bs =>
    if a.toNat < b.toNat then true
    else if b.toNat < a.toNat then false
    else charListLt as bs

/-- Strict order on strings (Rust's `Ord for String`). -/
def strLt (a b : String) : Bool := charListLt a.data b.data

/-- Non-strict order on strings. -/
def strLe (a b : String) : Bool := !(strLt b a)

/-- Stable insertion (used to model Rust's stable `sort`; two stable sorts
with the same comparator compute the same function). -/
def insertStrSorted (a : String) : List String → List String
  | [] => [a]
  | b :: bs => if strLe a b then a :: b :: bs else b :: insertStrSorted a bs

/-- Model of `Vec<String>::sort` / `sort_by` with the string comparator:
a stable sort by the byte-lexicographic order. -/
def sortStrings (l : List String) : List String :=
  l.foldr insertStrSorted []

/-- The `serde_json::Value`s produced by `build_skeleton_json` and consumed
by `merge_skeleton_values`: string arrays (attribute-key lists) and objects
with string keys.  Objects model `serde_json::Map` (BTreeMap-backed in the
default configuration), so their entry lists are kept sorted by key. -/
inductive SkelValue : Type where
  | arr : List String → SkelValue
  | obj : List (String × SkelValue) → SkelValue

/-- Map lookup (`Map::get` on the entry list). -/
def lookupEntry : List (String × SkelValue) → String → Option SkelValue
  | [], _ => none
  | (k0, v0) :: rest, k => if k0 = k then some v0 else lookupEntry rest k

/-- In-place update of the value stored at an existing key (`Map::get_mut`
followed by assignment): entry order is unchanged. -/
def setValueAt (es : List (String × SkelValue)) (k : String) (v : SkelValue) :
    List (String × SkelValue) :=
  es.map (fun e => if e.1 = k then (e.1, v) else e)

/-- `BTreeMap::insert` on the sorted entry list: insert at the ordered
position, overwriting an existing binding of the same key. -/
def insertEntrySorted : List (String × SkelValue) → String → SkelValue →
    List (String × SkelValue)
  | [], k, v => [(k, v)]
  | (k0, v0) :: rest, k, v =>
    if strLt k k0 then (k, v) :: (k0, v0) :: rest
    else if k = k0 then (k, v) :: rest
    else (k0, v0) :: insertEntrySorted rest k v

/-- The `key == "@attributes"` branch of `merge_skeleton_values`
(xml_struct.rs lines 106-124): only when the existing map already has an
array at "@attributes" and the incoming value is an array, push each new
attribute that is not already present and re-sort; otherwise do nothing
(in particular, incoming attributes are dropped when the existing map has
no "@attributes" entry). -/
def attrMergeInto (es : List (String × SkelValue)) (v : SkelValue) :
    List (String × SkelValue) :=
  match lookupEntry es "@attributes", v with
  | some (.arr xs), .arr ys =>
    let pushed := ys.foldl (fun acc y => if y ∈ acc then acc else acc ++ [y]) xs
    setValueAt es "@attributes" (SkelValue.arr (sortStrings pushed))
  | _, _ => es

mutual

/-- `SkeletonSignature::merge_skeleton_values` (xml_struct.rs lines
102-134): when both values are objects, fold the new object's entries into
the existing one; otherwise the existing value is returned unchanged. -/
def mergeValues : SkelValue → SkelValue → SkelValue
  | existing, .obj ns =>
    (match existing with
     | .obj es => SkelValue.obj (mergeEntriesInto es ns)
     | other => other)
  | existing, .arr _ => existing

/-- The `for (key, value) in new_map` loop of `merge_skeleton_values`:
"@attributes" entries take the attribute-merge branch; any other key is
merged recursively when present (`and_modify`) and inserted otherwise
(`or_insert`). -/
def mergeEntriesInto : List (String × SkelValue) → List (String × SkelValue) →
    List (String × SkelValue)
  | es, [] => es
  | es, (k, v) :: rest =>
    mergeEntriesInto
      (if k = "@attributes" then attrMergeInto es v
       else
         match lookupEntry es k with
         | some old => setValueAt es k (mergeValues old v)
         | none => insertEntrySorted es k v)
      rest

end

/-- `SkeletonSignature::merge_child_instances` (xml_struct.rs lines 84-99),
applied to the already-built skeletons of the instances of one child-name
bucket: start from the first instance and merge the remaining ones in, in
bucket (= document) order; an empty bucket yields the empty object. -/
def mergeInstanceSkels : List SkelValue → SkelValue
  | [] => SkelValue.obj []
  | s :: rest => rest.foldl mergeValues s

/-- One step of building `children_by_name`
(`children_by_name.entry(name).or_insert_with(Vec::new).push(child)`):
append the built child skeleton to its name's bucket, keeping buckets
sorted by name (BTreeMap) and instances in document order. -/
def bucketPush : List (String × List SkelValue) → String → SkelValue →
    List (String × List SkelValue)
  | [], n, s => [(n, [s])]
  | (k, b) :: rest, n, s =>
    if strLt n k then (n, [s]) :: (k, b) :: rest
    else if n = k then (k, b ++ [s]) :: rest
    else (k, b) :: bucketPush rest n s

/-- Group pre-built `(name, skeleton)` pairs of the children by name. -/
def childrenByName (l : List (String × SkelValue)) :
    List (String × List SkelValue) :=
  l.foldl (fun acc e => bucketPush acc e.1 e.2) []

/-- The `for (child_name, instances) in children_by_name` loop of
`build_skeleton_json`: merge each bucket and insert it into the summary
map. -/
def insertBuckets (base : List (String × SkelValue))
    (buckets : List (String × List SkelValue)) : List (String × SkelValue) :=
  buckets.foldl (fun acc b => insertEntrySorted acc b.1 (mergeInstanceSkels b.2)) base

mutual

/-- `SkeletonSignature::build_skeleton_json` (xml_struct.rs lines 53-81):
the sorted attribute-key list (when non-empty) under the reserved
"@attributes" key, plus one entry per distinct child name holding the merge
of that bucket's instances.  The children are reduced first and then
bucketed by name; since `build_skeleton_json` is a pure function of the
instance this computes the same map as the source's bucket-then-reduce
order. -/
def buildSkeletonJson : XmlStructure → SkelValue
  | .mk _ attrs cs =>
    let base : List (String × SkelValue) :=
      match attrs with
      | some as =>
        let attrList := sortStrings as
        if attrList.isEmpty then [] else [("@attributes", SkelValue.arr attrList)]
      | none => []
    SkelValue.obj (insertBuckets base (childrenByName (buildNamedChildren cs)))

/-- Reduce every child to `(its name, its built skeleton)`, in document
order. -/
def buildNamedChildren : List XmlStructure → List (String × SkelValue)
  | [] => []
  | c :: rest => (c.name, buildSkeletonJson c) :: buildNamedChildren rest

end

/-- Lowercase hexadecimal digit (serde_json's escape table). -/
def hexDigit (n : Nat) : Char :=
  if n < 10 then Char.ofNat (48 + n) else Char.ofNat (87 + n)

/-- serde_json's string escaping: quote and backslash are escaped, control
characters use the two-character shorthands or a \u00XX escape, everything
else is emitted verbatim. -/
def jsonEscapeChar (c : Char) : List Char :=
  if c = Char.ofNat 34 then [Char.ofNat 92, Char.ofNat 34]
  else if c = Char.ofNat 92 then [Char.ofNat 92, Char.ofNat 92]
  else if c.toNat < 0x20 then
    if c.toNat = 8 then [Char.ofNat 92, 'b']
    else if c.toNat = 9 then [Char.ofNat 92, 't']
    else if c.toNat = 10 then [Char.ofNat 92, 'n']
    else if c.toNat = 12 then [Char.ofNat 92, 'f']
    else if c.toNat = 13 then [Char.ofNat 92, 'r']
    else [Char.ofNat 92, 'u', '0', '0', hexDigit (c.toNat >>> 4), hexDigit (c.toNat &&& 0xF)]
  else [c]

/-- A JSON string literal for `s`. -/
def quoteStr (s : String) : String :=
  String.mk (Char.ofNat 34 :: (s.data.map jsonEscapeChar).flatten ++ [Char.ofNat 34])

/-- Comma-joined list of rendered pieces. -/
def commaSep : List String → String
  | [] => ""
  | [s] => s
  | s :: rest => s ++ "," ++ commaSep rest

mutual

/-- `serde_json::Value::to_string` (compact form) on skeleton values:
objects render their entries in map order (sorted keys), arrays render
their elements in order. -/
def jsonStr : SkelValue → String
  | .arr xs => "[" ++ commaSep (xs.map quoteStr) ++ "]"
  | .obj es => "\x7b" ++ jsonEntries es ++ "\x7d"

/-- Comma-joined `"key":value` renderings of an object's entries. -/
def jsonEntries : List (String × SkelValue) → String
  | [] => ""
  | [(k, v)] => quoteStr k ++ ":" ++ jsonStr v
  | (k, v) :: rest => quoteStr k ++ ":" ++ jsonStr v ++ "," ++ jsonEntries rest

end

/-- `SkeletonSignature::hash_skeleton` (xml_struct.rs lines 137-143):
DefaultHasher over the canonical JSON string (Rust hashes a string as its
UTF-8 bytes followed by a 0xFF terminator byte). -/
def hashSkeleton (v : SkelValue) : Nat :=
  sip13 (utf8Bytes (jsonStr v) ++ [0xFF])

/-- `SkeletonSignature` (xml_struct.rs lines 26-36). -/
structure SkeletonSignature : Type where
  root : String
  skeleton : SkelValue
  hash : Nat

/-- `SkeletonSignature::from_structure` (xml_struct.rs lines 41-50). -/
def SkeletonSignature.fromStructure (x : XmlStructure) : SkeletonSignature :=
  let skeleton := buildSkeletonJson x
  { root := x.name, skeleton := skeleton, hash := hashSkeleton skeleton }

/-- `XmlStructure::to_skeleton`. -/
def XmlStructure.toSkeleton (x : XmlStructure) : SkeletonSignature :=
  SkeletonSignature.fromStructure x

/-- `StructureGroup` (xml_struct.rs lines 245-258). -/
structure StructureGroup : Type where
  skeleton : SkeletonSignature
  files : List String
  count : Nat
  example_structure : Option XmlStructure

/-- `StructureGroup::new` (xml_struct.rs lines 261-270): the first file's
structure provides the skeleton and the retained example. -/
def StructureGroup.new (s : XmlStructure) (filePath : String) : StructureGroup :=
  { skeleton := s.toSkeleton
    files := [filePath]
    count := 1
    example_structure := some s }

/-- `StructureGroup::add_file` (xml_struct.rs lines 272-276): push the path
and bump the count; no other field is touched. -/
def StructureGroup.addFile (g : StructureGroup) (filePath : String) : StructureGroup :=
  { g with files := g.files ++ [filePath], count := g.count + 1 }

/-- The shared `HashMap<u64, StructureGroup>` of `process_xml_files`,
modelled as an association list in insertion order with (at most) one entry
per hash key. -/
abbrev GroupMap : Type := List (Nat × StructureGroup)

/-- `groups.entry(hash).and_modify(|g| g.add_file(path)).or_insert_with(|| StructureGroup::new(structure, path))`
(struct_processor.rs lines 110-117): if the hash is present, append the
file to that group, otherwise create a new group for it. -/
def offerGo : List (Nat × StructureGroup) → Nat → String → XmlStructure →
    List (Nat × StructureGroup)
  | [], h, p, s => [(h, StructureGroup.new s p)]
  | (k, g) :: rest, h, p, s =>
    if k = h then (k, g.addFile p) :: rest
    else (k, g) :: offerGo rest h p s

/-- One document as the grouper sees it: its path together with the outcome
of the external read-and-parse step (`fs::read_to_string` +
`roxmltree::Document::parse` are external collaborators; a malformed or
unreadable document arrives as an error value carrying the message). -/
abbrev Doc : Type := String × Except String XmlStructure

/-- `process_single_file` (struct_processor.rs lines 95-118) as a state
transition of the group map: a successfully parsed structure is offered
under its `structure_hash`; a failed document leaves the map untouched (the
error is only logged by the caller). -/
def processSingleFile (m : List (Nat × StructureGroup)) (d : Doc) :
    List (Nat × StructureGroup) :=
  match d.2 with
  | .ok s => offerGo m (structureHash s) d.1 s
  | .error _ => m

/-- The accumulation loop of `process_xml_files` (struct_processor.rs lines
51-64).  The rayon workers interleave arbitrarily, but the mutex is held
across the whole entry operation, so every interleaving is equivalent to
processing the documents in some sequential order; that order is the list
order here, and order-dependent claims quantify over it. -/
def processGroups (docs : List Doc) : List (Nat × StructureGroup) :=
  docs.foldl processSingleFile []

/-- Stable insertion by descending count: `groups.sort_by(|a, b| b.count.cmp(&a.count))`
is a stable sort, and a stable insertion sort with the same comparator
computes the same function. -/
def insGroupByCount (g : StructureGroup) : List StructureGroup → List StructureGroup
  | [] => [g]
  | h :: t => if h.count ≤ g.count then g :: h :: t else h :: insGroupByCount g t

/-- `groups.sort_by(|a, b| b.count.cmp(&a.count))` (struct_processor.rs
line 78). -/
def sortGroupsByCount (l : List StructureGroup) : List StructureGroup :=
  l.foldr insGroupByCount []

/-- `ProcessingResult` (xml_struct.rs lines 292-301). -/
structure ProcessingResult : Type where
  total_files : Nat
  unique_structures : Nat
  groups : List StructureGroup

/-- The result assembly of `process_xml_files` (struct_processor.rs lines
71-84).  `vals` is the sequence produced by `HashMap::into_values`, whose
order is unspecified: theorems quantify over the permutations of the group
map's entries. -/
def processXmlFiles (docs : List Doc) (vals : List StructureGroup) : ProcessingResult :=
  let groups := sortGroupsByCount vals
  { total_files := docs.length
    unique_structures := groups.length
    groups := groups }

/-- Sum of the `count` fields over the group table. -/
def sumCounts (m : List (Nat × StructureGroup)) : Nat :=
  (m.map (fun e => e.2.count)).sum

/-- Paths of the successfully parsed documents. -/
def okPaths (docs : List Doc) : List String :=
  docs.filterMap (fun d => match d.2 with | .ok _ => some d.1 | .error _ => none)

/-- Number of successfully parsed documents (= successful offers). -/
def countOk (docs : List Doc) : Nat :=
  (okPaths docs).length

/-- Number of documents skipped due to a per-document failure. -/
def countErr (docs : List Doc) : Nat :=
  (docs.filter (fun d => match d.2 with | .ok _ => false | .error _ => true)).length

/-- The structure of the first successfully parsed document whose
`structure_hash` is `h` — the document whose offer created `h`'s group. -/
def firstOkWithHash (h : Nat) : List Doc → Option XmlStructure
  | [] => none
  | (_, .ok s) :: rest =>
    if structureHash s = h then some s else firstOkWithHash h rest
  | (_, .error _) :: rest => firstOkWithHash h rest

lemma charListLt_self (l : List Char) : charListLt l l = false := by
  induction l with
  | nil => rfl
  | cons a as ih => simp [charListLt, ih]

lemma strLt_self (a : String) : strLt a a = false :=
  charListLt_self a.data

lemma sumCounts_cons (e : Nat × StructureGroup) (m : List (Nat × StructureGroup)) :
    sumCounts (e :: m) = e.2.count + sumCounts m := by
  simp [sumCounts]

lemma sumCounts_offerGo (m : List (Nat × StructureGroup)) (h : Nat) (p : String)
    (s : XmlStructure) : sumCounts (offerGo m h p s) = sumCounts m + 1 := by
  induction m with
  | nil => simp [offerGo, sumCounts, StructureGroup.new]
  | cons e rest ih =>
    obtain ⟨k, g⟩ := e
    by_cases hk : k = h
    · simp [offerGo, hk, sumCounts_cons, StructureGroup.addFile]
      omega
    · simp [offerGo, hk, sumCounts_cons, ih]
      omega

lemma sumCounts_foldl (docs : List Doc) :
    ∀ m, sumCounts (docs.foldl processSingleFile m) = sumCounts m + countOk docs := by
  induction docs with
  | nil => intro m; simp [countOk, okPaths]
  | cons d rest ih =>
    intro m
    obtain ⟨p, r⟩ := d
    cases r with
    | ok s =>
      simp [processSingleFile, ih, sumCounts_offerGo, countOk, okPaths]
      omega
    | error msg =>
      simp [processSingleFile, ih, countOk, okPaths]

lemma countOk_add_countErr (docs : List Doc) :
    countOk docs + countErr docs = docs.length := by
  induction docs with
  | nil => rfl
  | cons d rest ih =>
    obtain ⟨p, r⟩ := d
    cases r with
    | ok s => simp [countOk, okPaths, countErr] at *; omega
    | error msg => simp [countOk, okPaths, countErr] at *; omega

lemma okPaths_append (l1 l2 : List Doc) :
    okPaths (l1 ++ l2) = okPaths l1 ++ okPaths l2 := by
  simp [okPaths]

lemma lookup_offerGo_self (m : List (Nat × StructureGroup)) (h : Nat) (p : String)
    (s : XmlStructure) :
    List.lookup h (offerGo m h p s)
      = some (match List.lookup h m with
              | some g => g.addFile p
              | none => StructureGroup.new s p) := by
  induction m with
  | nil => simp [offerGo, List.lookup]
  | cons e rest ih =>
    obtain ⟨k, g⟩ := e
    by_cases hk : k = h
    · subst hk
      simp [offerGo, List.lookup]
    · have hk2 : (h == k) = false := by simp [Ne.symm hk]
      simp [offerGo, hk, List.lookup, hk2, ih]

lemma lookup_offerGo_other (m : List (Nat × StructureGroup)) (h h2 : Nat) (p : String)
    (s : XmlStructure) (hne : h2 ≠ h) :
    List.lookup h2 (offerGo m h p s) = List.lookup h2 m := by
  have hb : (h2 == h) = false := beq_eq_false_iff_ne.mpr hne
  induction m with
  | nil => simp [offerGo, List.lookup, hb]
  | cons e rest ih =>
    obtain ⟨k, g⟩ := e
    by_cases hk : k = h
    · subst hk
      simp [offerGo, List.lookup, hb]
    · simp [offerGo, hk, List.lookup, ih]

lemma keys_offerGo (m : List (Nat × StructureGroup)) (h : Nat) (p : String)
    (s : XmlStructure) :
    (offerGo m h p s).map Prod.fst
      = if h ∈ m.map Prod.fst then m.map Prod.fst else m.map Prod.fst ++ [h] := by
  induction m with
  | nil => simp [offerGo]
  | cons e rest ih =>
    obtain ⟨k, g⟩ := e
    by_cases hk : k = h
    · subst hk
      simp [offerGo]
    · have hstep : (offerGo ((k, g) :: rest) h p s).map Prod.fst
          = k :: (offerGo rest h p s).map Prod.fst := by
        simp [offerGo, hk]
      rw [hstep, ih]
      by_cases hm : h ∈ rest.map Prod.fst
      · rw [if_pos hm, if_pos (by simp [hm])]
        simp
      · rw [if_neg hm, if_neg ?_]
        · simp
        · intro hmem
          rcases List.mem_cons.mp hmem with h1 | h1
          · exact hk h1.symm
          · exact hm h1

lemma nodup_keys_offerGo (m : List (Nat × StructureGroup)) (h : Nat) (p : String)
    (s : XmlStructure) (hm : (m.map Prod.fst).Nodup) :
    ((offerGo m h p s).map Prod.fst).Nodup := by
  rw [keys_offerGo]
  split
  · exact hm
  · next hmem => simp [List.nodup_append, hm, hmem]

lemma nodup_keys_foldl (docs : List Doc) :
    ∀ m, (m.map Prod.fst).Nodup →
      ((docs.foldl processSingleFile m).map Prod.fst).Nodup := by
  induction docs with
  | nil => intro m hm; simpa using hm
  | cons d rest ih =>
    intro m hm
    obtain ⟨p, r⟩ := d
    cases r with
    | ok s => exact ih _ (nodup_keys_offerGo m _ p s hm)
    | error msg => exact ih _ hm

lemma okPaths_cons_ok (p : String) (s : XmlStructure) (rest : List Doc) :
    okPaths ((p, Except.ok s) :: rest) = p :: okPaths rest := by
  simp [okPaths]

lemma okPaths_cons_err (p msg : String) (rest : List Doc) :
    okPaths ((p, Except.error msg) :: rest) = okPaths rest := by
  simp [okPaths]

lemma files_offerGo (h : Nat) (p : String) (s : XmlStructure) (q : String) :
    ∀ m, ∀ e ∈ offerGo m h p s, q ∈ e.2.files →
      q = p ∨ ∃ e0 ∈ m, q ∈ e0.2.files := by
  intro m
  induction m with
  | nil =>
    intro e he hq
    simp [offerGo] at he
    subst he
    simp [StructureGroup.new] at hq
    exact Or.inl hq
  | cons e1 rest ih =>
    intro e he hq
    obtain ⟨k, g⟩ := e1
    by_cases hk : k = h
    · rw [show offerGo ((k, g) :: rest) h p s = (k, g.addFile p) :: rest by
        simp [offerGo, hk]] at he
      rcases List.mem_cons.mp he with he | he
      · subst he
        simp [StructureGroup.addFile] at hq
        rcases hq with hq | hq
        · exact Or.inr ⟨(k, g), by simp, hq⟩
        · exact Or.inl hq
      · exact Or.inr ⟨e, by simp [he], hq⟩
    · rw [show offerGo ((k, g) :: rest) h p s = (k, g) :: offerGo rest h p s by
        simp [offerGo, hk]] at he
      rcases List.mem_cons.mp he with he | he
      · subst he
        exact Or.inr ⟨(k, g), by simp, hq⟩
      · rcases ih e he hq with h1 | ⟨e0, he0, hq0⟩
        · exact Or.inl h1
        · exact Or.inr ⟨e0, by simp [he0], hq0⟩

lemma files_foldl (docs : List Doc) :
    ∀ m e q, e ∈ docs.foldl processSingleFile m → q ∈ e.2.files →
      q ∈ okPaths docs ∨ ∃ e0 ∈ m, q ∈ e0.2.files := by
  induction docs with
  | nil => intro m e q he hq; exact Or.inr ⟨e, by simpa using he, hq⟩
  | cons d rest ih =>
    intro m e q he hq
    obtain ⟨p, r⟩ := d
    cases r with
    | ok s =>
      rcases ih _ e q (by simpa [processSingleFile] using he) hq with h1 | ⟨e0, he0, hq0⟩
      · exact Or.inl (by rw [okPaths_cons_ok]; exact List.mem_cons_of_mem p h1)
      · rcases files_offerGo (structureHash s) p s q m e0 he0 hq0 with h2 | ⟨e1, he1, hq1⟩
        · exact Or.inl (by rw [okPaths_cons_ok, h2]; exact List.mem_cons_self p _)
        · exact Or.inr ⟨e1, he1, hq1⟩
    | error msg =>
      rcases ih _ e q (by simpa [processSingleFile] using he) hq with h1 | hrest
      · exact Or.inl (by rw [okPaths_cons_err]; exact h1)
      · exact Or.inr hrest

lemma lookup_foldl_rep (docs : List Doc) :
    ∀ m h g, List.lookup h (docs.foldl processSingleFile m) = some g →
      (∃ g0, List.lookup h m = some g0 ∧ g.skeleton = g0.skeleton ∧
        g.example_structure = g0.example_structure) ∨
      (List.lookup h m = none ∧ ∃ s, firstOkWithHash h docs = some s ∧
        g.skeleton = s.toSkeleton ∧ g.example_structure = some s) := by
  induction docs with
  | nil =>
    intro m h g hg
    exact Or.inl ⟨g, by simpa using hg, rfl, rfl⟩
  | cons d rest ih =>
    intro m h g hg
    obtain ⟨p, r⟩ := d
    cases r with
    | error msg =>
      rcases ih _ h g (by simpa [processSingleFile] using hg) with
        hL | ⟨hnone, s, hfirst, hsk, hex⟩
      · exact Or.inl hL
      · exact Or.inr ⟨hnone, s, by simpa [firstOkWithHash] using hfirst, hsk, hex⟩
    | ok s0 =>
      rcases ih (offerGo m (structureHash s0) p s0) h g
          (by simpa [processSingleFile] using hg) with
        ⟨g0, hg0, hsk, hex⟩ | ⟨hnone, s, hfirst, hsk, hex⟩
      · by_cases hh : h = structureHash s0
        · subst hh
          rw [lookup_offerGo_self] at hg0
          cases hm : List.lookup (structureHash s0) m with
          | some gm =>
            rw [hm] at hg0
            have hg0e : gm.addFile p = g0 := Option.some.inj hg0
            refine Or.inl ⟨gm, rfl, ?_, ?_⟩
            · rw [hsk, ← hg0e]; rfl
            · rw [hex, ← hg0e]; rfl
          | none =>
            rw [hm] at hg0
            have hg0e : StructureGroup.new s0 p = g0 := Option.some.inj hg0
            refine Or.inr ⟨rfl, s0, ?_, ?_, ?_⟩
            · simp [firstOkWithHash]
            · rw [hsk, ← hg0e]; rfl
            · rw [hex, ← hg0e]; rfl
        · rw [lookup_offerGo_other _ _ _ _ _ hh] at hg0
          exact Or.inl ⟨g0, hg0, hsk, hex⟩
      · by_cases hh : h = structureHash s0
        · subst hh
          rw [lookup_offerGo_self] at hnone
          exact absurd hnone (by simp)
        · rw [lookup_offerGo_other _ _ _ _ _ hh] at hnone
          refine Or.inr ⟨hnone, s, ?_, hsk, hex⟩
          have hcond : ¬ structureHash s0 = h := fun hx => hh hx.symm
          simpa [firstOkWithHash, hcond] using hfirst

lemma mem_insGroupByCount (g a : StructureGroup) :
    ∀ l, a ∈ insGroupByCount g l → a = g ∨ a ∈ l := by
  intro l
  induction l with
  | nil => intro h; simpa [insGroupByCount] using h
  | cons b t ih =>
    intro h
    by_cases hc : b.count ≤ g.count
    · rw [show insGroupByCount g (b :: t) = g :: b :: t by
        simp [insGroupByCount, hc]] at h
      rcases List.mem_cons.mp h with h1 | h1
      · exact Or.inl h1
      · exact Or.inr h1
    · rw [show insGroupByCount g (b :: t) = b :: insGroupByCount g t by
        simp [insGroupByCount, hc]] at h
      rcases List.mem_cons.mp h with h1 | h1
      · exact Or.inr (by simp [h1])
      · rcases ih h1 with h2 | h2
        · exact Or.inl h2
        · exact Or.inr (by simp [h2])

lemma sorted_insGroupByCount (g : StructureGroup) :
    ∀ l, List.Sorted (fun a b => b.count ≤ a.count) l →
      List.Sorted (fun a b => b.count ≤ a.count) (insGroupByCount g l) := by
  intro l
  induction l with
  | nil => intro _; simp [insGroupByCount]
  | cons b t ih =>
    intro hs
    rw [List.sorted_cons] at hs
    obtain ⟨hb, ht⟩ := hs
    by_cases hc : b.count ≤ g.count
    · rw [show insGroupByCount g (b :: t) = g :: b :: t by
        simp [insGroupByCount, hc]]
      rw [List.sorted_cons]
      refine ⟨?_, by rw [List.sorted_cons]; exact ⟨hb, ht⟩⟩
      intro c hc2
      rcases List.mem_cons.mp hc2 with h1 | h1
      · subst h1; exact hc
      · exact le_trans (hb c h1) hc
    · rw [show insGroupByCount g (b :: t) = b :: insGroupByCount g t by
        simp [insGroupByCount, hc]]
      rw [List.sorted_cons]
      refine ⟨?_, ih ht⟩
      intro c hc2
      rcases mem_insGroupByCount g c t hc2 with h1 | h1
      · subst h1; omega
      · exact hb c h1

lemma sorted_sortGroupsByCount (l : List StructureGroup) :
    List.Sorted (fun a b => b.count ≤ a.count) (sortGroupsByCount l) := by
  induction l with
  | nil => simp [sortGroupsByCount]
  | cons b t ih => exact sorted_insGroupByCount b _ ih

/-- Structure of `<a x=""/>`: attribute key "x", no children. -/
def collA : XmlStructure := .mk "a" (some ["x"]) []

/-- Structure of `<a><x/></a>`: no attributes, one child element "x". -/
def collB : XmlStructure := .mk "a" none [.mk "x" none []]

/-- Structure of `<book><chapter/><chapter/></book>`. -/
def repA : XmlStructure := .mk "book" none [.mk "chapter" none [], .mk "chapter" none []]

/-- Structure of `<book><chapter/></book>`. -/
def repB : XmlStructure := .mk "book" none [.mk "chapter" none []]

/-- Structure of `<chapter/>`. -/
def chapPlain : XmlStructure := .mk "chapter" none []

/-- Structure of `<chapter id="1"/>`. -/
def chapId : XmlStructure := .mk "chapter" (some ["id"]) []

/-- Structure of `<a><b/><c/></a>`. -/
def flatA : XmlStructure := .mk "a" none [.mk "b" none [], .mk "c" none []]

/-- Structure of `<a><b><c/></b></a>`. -/
def nestA : XmlStructure := .mk "a" none [.mk "b" none [.mk "c" none []]]

/-- Structure of `<book><title>..</title></book>`. -/
def bookS : XmlStructure := .mk "book" none [.mk "title" none []]

/-- Structure of `<article><heading>..</heading></article>`. -/
def articleS : XmlStructure := .mk "article" none [.mk "heading" none []]

/-- Documents for the reporting scenario: one book, one article. -/
def bookDoc : Doc := ("b.xml", Except.ok bookS)

/-- See `bookDoc`. -/
def articleDoc : Doc := ("a.xml", Except.ok articleS)

/-- The group created by offering `bookS` first. -/
def bookGroup : StructureGroup := StructureGroup.new bookS "b.xml"

/-- The group created by offering `articleS` second. -/
def articleGroup : StructureGroup := StructureGroup.new articleS "a.xml"

/-- Structure of `<r><p/><p/></r>`. -/
def repC : XmlStructure := .mk "r" none [.mk "p" none [], .mk "p" none []]

/-- Structure of `<r><p/></r>`. -/
def repD : XmlStructure := .mk "r" none [.mk "p" none []]

/-- Modelled from the spec clause "the sorted, deduplicated union \x7bx, y\x7d"
for the two singleton attribute-key sets, with the byte-lexicographic string
order used throughout the model. -/
def specSortedDedupUnion (x y : String) : List String :=
  if x = y then [x] else if strLe x y then [x, y] else [y, x]

/-- C1: the grouper does not verify structural equality on a hash match: the
structures of `<a x=""/>` and `<a><x/></a>` have unequal skeletons but equal
`structure_hash` (the Hash impl writes no separator between the attribute
section and the child section), and offering both puts both files into one
group instead of creating distinct groups. -/
theorem c1_hash_collision_merges_unequal_skeletons :
    structureHash collA = structureHash collB
    ∧ collA.toSkeleton.skeleton ≠ collB.toSkeleton.skeleton
    ∧ (processGroups [("f1.xml", Except.ok collA), ("f2.xml", Except.ok collB)]).length = 1
    ∧ (processGroups [("f1.xml", Except.ok collA), ("f2.xml", Except.ok collB)]).map
        (fun e => e.2.files) = [["f1.xml", "f2.xml"]] := by
  refine ⟨rfl, ?_, by decide, by decide⟩
  intro h
  exact absurd (congrArg jsonStr h) (by decide)

/-- C2: the grouping key is the hash of the full structure, not of the merged
skeleton: `<book><chapter/><chapter/></book>` and `<book><chapter/></book>`
have equal reduced skeletons but different `structure_hash`, and the grouper
places them in two different groups. -/
theorem c2_grouping_key_is_structure_hash_not_skeleton :
    repA.toSkeleton = repB.toSkeleton
    ∧ structureHash repA ≠ structureHash repB
    ∧ (processGroups [("r1.xml", Except.ok repA), ("r2.xml", Except.ok repB)]).length = 2
    ∧ (processGroups [("r1.xml", Except.ok repA), ("r2.xml", Except.ok repB)]).map
        (fun e => e.2.files) = [["r1.xml"], ["r2.xml"]] :=
  ⟨rfl, by decide, by decide, by decide⟩

/-- C3: merging the instances of a same-named child bucket is not
commutative: when the first instance has no attributes, the "@attributes"
branch of `merge_skeleton_values` silently drops the second instance's
attribute keys, so the two merge orders of `<chapter/>` and
`<chapter id="1"/>` produce different sub-skeletons (and the documents
differing only in sibling order produce different skeletons). -/
theorem c3_bucket_merge_not_commutative :
    mergeInstanceSkels [buildSkeletonJson chapPlain, buildSkeletonJson chapId]
      = SkelValue.obj []
    ∧ mergeInstanceSkels [buildSkeletonJson chapId, buildSkeletonJson chapPlain]
      = SkelValue.obj [("@attributes", SkelValue.arr ["id"])]
    ∧ mergeInstanceSkels [buildSkeletonJson chapPlain, buildSkeletonJson chapId]
      ≠ mergeInstanceSkels [buildSkeletonJson chapId, buildSkeletonJson chapPlain]
    ∧ buildSkeletonJson (.mk "book" none [chapPlain, chapId])
      ≠ buildSkeletonJson (.mk "book" none [chapId, chapPlain]) := by
  refine ⟨rfl, rfl, ?_, ?_⟩
  · intro h
    exact absurd (congrArg jsonStr h) (by decide)
  · intro h
    exact absurd (congrArg jsonStr h) (by decide)

/-- C4: for a root with exactly two same-named children carrying attribute
key sets \x7bx\x7d and \x7by\x7d, the merged sub-entry for that child name
carries exactly the sorted, deduplicated union of the two sets. -/
theorem c4_sibling_attr_union (r n x y : String) :
    buildSkeletonJson (.mk r none [.mk n (some [x]) [], .mk n (some [y]) []])
      = SkelValue.obj [(n, SkelValue.obj
          [("@attributes", SkelValue.arr (specSortedDedupUnion x y))])] := by
  have h1 : buildNamedChildren
      [XmlStructure.mk n (some [x]) [], XmlStructure.mk n (some [y]) []]
      = [(n, SkelValue.obj [("@attributes", SkelValue.arr [x])]),
         (n, SkelValue.obj [("@attributes", SkelValue.arr [y])])] := rfl
  have h2 : childrenByName
      [(n, SkelValue.obj [("@attributes", SkelValue.arr [x])]),
       (n, SkelValue.obj [("@attributes", SkelValue.arr [y])])]
      = [(n, [SkelValue.obj [("@attributes", SkelValue.arr [x])],
              SkelValue.obj [("@attributes", SkelValue.arr [y])]])] := by
    simp [childrenByName, bucketPush, strLt_self]
  have h3 : mergeInstanceSkels
      [SkelValue.obj [("@attributes", SkelValue.arr [x])],
       SkelValue.obj [("@attributes", SkelValue.arr [y])]]
      = SkelValue.obj [("@attributes", SkelValue.arr (specSortedDedupUnion x y))] := by
    show SkelValue.obj (mergeEntriesInto [("@attributes", SkelValue.arr [x])]
        [("@attributes", SkelValue.arr [y])]) = _
    by_cases hxy : y = x
    · subst hxy
      simp [mergeEntriesInto, attrMergeInto, lookupEntry, setValueAt,
        sortStrings, insertStrSorted, specSortedDedupUnion]
    · have hxy2 : ¬ x = y := fun h => hxy h.symm
      simp only [mergeEntriesInto, attrMergeInto, lookupEntry, setValueAt,
        if_pos rfl, List.foldl_cons, List.foldl_nil, List.mem_singleton,
        hxy, if_neg hxy, if_false]
      simp [sortStrings, insertStrSorted, specSortedDedupUnion, hxy, hxy2]
  calc buildSkeletonJson (.mk r none [.mk n (some [x]) [], .mk n (some [y]) []])
      = SkelValue.obj (insertBuckets [] (childrenByName (buildNamedChildren
          [XmlStructure.mk n (some [x]) [], XmlStructure.mk n (some [y]) []]))) := rfl
    _ = SkelValue.obj (insertBuckets []
          [(n, [SkelValue.obj [("@attributes", SkelValue.arr [x])],
                SkelValue.obj [("@attributes", SkelValue.arr [y])]])]) := by
          rw [h1, h2]
    _ = SkelValue.obj [(n, mergeInstanceSkels
          [SkelValue.obj [("@attributes", SkelValue.arr [x])],
           SkelValue.obj [("@attributes", SkelValue.arr [y])]])] := rfl
    _ = SkelValue.obj [(n, SkelValue.obj
          [("@attributes", SkelValue.arr (specSortedDedupUnion x y))])] := by
          rw [h3]

/-- C5: structurally distinct documents are not always separated:
`<a><b/><c/></a>` and `<a><b><c/></b></a>` differ in child-name sets at
depth 1 (and in nesting), yet the Hash impl's undelimited byte stream makes
their 64-bit hashes equal deterministically and the grouper puts both
documents into one group. -/
theorem c5_distinct_shapes_equal_hash_same_group :
    flatA.children.map XmlStructure.name = ["b", "c"]
    ∧ nestA.children.map XmlStructure.name = ["b"]
    ∧ structureHash flatA = structureHash nestA
    ∧ (processGroups [("d1.xml", Except.ok flatA), ("d2.xml", Except.ok nestA)]).length = 1
    ∧ (processGroups [("d1.xml", Except.ok flatA), ("d2.xml", Except.ok nestA)]).map
        (fun e => e.2.files) = [["d1.xml", "d2.xml"]] :=
  ⟨by decide, by decide, rfl, by decide, by decide⟩

/-- C6 (counterexample): tie order is not creation order.  Processing the
book document then the article document creates the book group first, but
`HashMap::into_values` may emit the two (equal-count) groups in the other
order, and the stable count sort keeps that order, so the final groups
sequence is the reverse of creation order. -/
theorem c6_tie_order_not_creation_order :
    (processGroups [bookDoc, articleDoc]).map Prod.snd = [bookGroup, articleGroup]
    ∧ ([articleGroup, bookGroup]).Perm
        ((processGroups [bookDoc, articleDoc]).map Prod.snd)
    ∧ (processXmlFiles [bookDoc, articleDoc] [articleGroup, bookGroup]).groups
        = [articleGroup, bookGroup]
    ∧ bookGroup.count = 1 ∧ articleGroup.count = 1
    ∧ bookGroup.skeleton.root ≠ articleGroup.skeleton.root := by
  refine ⟨rfl, ?_, rfl, rfl, rfl, by decide⟩
  exact List.Perm.swap bookGroup articleGroup []

/-- C6 (amended): the groups sequence of the final ProcessingResult is
sorted by count descending for every iteration order of the group table;
the relative order of equal-count groups follows that unspecified iteration
order, not the creation order. -/
theorem c6_groups_sorted_by_count_desc (docs : List Doc) (vals : List StructureGroup)
    (_hperm : vals.Perm ((processGroups docs).map Prod.snd)) :
    List.Sorted (fun a b => b.count ≤ a.count) (processXmlFiles docs vals).groups :=
  sorted_sortGroupsByCount vals

/-- C6 (witness): the sortedness theorem applied to the two-document run
with the identity iteration order. -/
theorem c6_groups_sorted_witness :
    List.Sorted (fun a b => b.count ≤ a.count)
      (processXmlFiles [bookDoc, articleDoc] [bookGroup, articleGroup]).groups :=
  c6_groups_sorted_by_count_desc [bookDoc, articleDoc] [bookGroup, articleGroup]
    (List.Perm.refl _)

/-- C7: a document whose read-or-parse step fails is skipped: the final
group table is the one obtained from the remaining documents alone, the sum
of group counts equals the number of successfully parsed documents, and
(when no successful document shares its path) the failed document's path
appears in no group's file list. -/
theorem c7_parse_error_skipped_batch_continues (pre post : List Doc) (p msg : String) :
    processGroups (pre ++ (p, Except.error msg) :: post) = processGroups (pre ++ post)
    ∧ sumCounts (processGroups (pre ++ (p, Except.error msg) :: post))
        = countOk (pre ++ post)
    ∧ (p ∉ okPaths (pre ++ post) →
        ∀ e ∈ processGroups (pre ++ (p, Except.error msg) :: post), p ∉ e.2.files) := by
  have hskip : processGroups (pre ++ (p, Except.error msg) :: post)
      = processGroups (pre ++ post) := by
    simp [processGroups, List.foldl_append, processSingleFile]
  refine ⟨hskip, ?_, ?_⟩
  · rw [hskip]
    have h1 : sumCounts ((pre ++ post).foldl processSingleFile [])
        = sumCounts [] + countOk (pre ++ post) := sumCounts_foldl (pre ++ post) []
    simpa [processGroups, sumCounts] using h1
  · intro hp e he hq
    rcases files_foldl (pre ++ (p, Except.error msg) :: post) [] e p he hq with
      h1 | ⟨e0, he0, _⟩
    · rw [okPaths_append, okPaths_cons_err, ← okPaths_append] at h1
      exact hp h1
    · simp at he0

/-- C7 (witness): a concrete two-document batch where the second document
is malformed. -/
theorem c7_parse_error_witness :
    processGroups [bookDoc, ("bad.xml", Except.error "unexpected end of stream")]
      = processGroups [bookDoc]
    ∧ sumCounts (processGroups
        [bookDoc, ("bad.xml", Except.error "unexpected end of stream")])
      = countOk [bookDoc]
    ∧ (∀ e ∈ processGroups
        [bookDoc, ("bad.xml", Except.error "unexpected end of stream")],
        "bad.xml" ∉ e.2.files) := by
  have h := c7_parse_error_skipped_batch_continues [bookDoc] []
    "bad.xml" "unexpected end of stream"
  exact ⟨h.1, h.2.1, h.2.2 (by decide)⟩

/-- C8: grouping conserves documents: after any batch, the sum of `count`
over all groups equals the number of successful offers, i.e. the batch
length minus the number of skipped documents; as the batch is arbitrary the
equation holds after every prefix, in particular after every successful
offer. -/
theorem c8_sum_counts_equals_successful_offers (docs : List Doc) :
    sumCounts (processGroups docs) = countOk docs
    ∧ sumCounts (processGroups docs) = docs.length - countErr docs := by
  have h1 : sumCounts (processGroups docs) = sumCounts [] + countOk docs :=
    sumCounts_foldl docs []
  have h2 := countOk_add_countErr docs
  have h3 : sumCounts ([] : List (Nat × StructureGroup)) = 0 := rfl
  constructor
  · omega
  · omega

/-- C9 (counterexample): more than one group can be created for one distinct
skeleton even in a fully sequential run: `<r><p/><p/></r>` and
`<r><p/></r>` have equal reduced skeletons but different full-structure
hashes, so two groups are created. -/
theorem c9_two_groups_for_one_skeleton :
    repC.toSkeleton = repD.toSkeleton
    ∧ (processGroups [("c.xml", Except.ok repC), ("d.xml", Except.ok repD)]).length = 2 :=
  ⟨rfl, by decide⟩

/-- C9 (amended): at most one group is created per distinct full-structure
hash value, regardless of the order in which the (mutex-atomic) offers are
interleaved: for every processing order the group table's hash keys are
duplicate-free. -/
theorem c9_at_most_one_group_per_hash (docs : List Doc) :
    ((processGroups docs).map Prod.fst).Nodup :=
  nodup_keys_foldl docs [] (by simp)

/-- C10: `add_file` changes only `files` (by appending the one new path) and
`count` (by exactly one), leaving `skeleton` and `example_structure`
untouched; consequently every group in the table carries the skeleton and
the retained example of the first successfully parsed document whose hash
created it. -/
theorem c10_add_file_frame_and_first_representative :
    (∀ (g : StructureGroup) (p : String),
        (g.addFile p).files = g.files ++ [p]
        ∧ (g.addFile p).count = g.count + 1
        ∧ (g.addFile p).skeleton = g.skeleton
        ∧ (g.addFile p).example_structure = g.example_structure)
    ∧ (∀ (docs : List Doc) (h : Nat) (g : StructureGroup),
        List.lookup h (processGroups docs) = some g →
          ∃ s, firstOkWithHash h docs = some s
            ∧ g.skeleton = s.toSkeleton
            ∧ g.example_structure = some s) := by
  constructor
  · intro g p
    exact ⟨rfl, rfl, rfl, rfl⟩
  · intro docs h g hg
    rcases lookup_foldl_rep docs [] h g hg with ⟨g0, hg0, _, _⟩ | ⟨_, s, h1, h2, h3⟩
    · simp [List.lookup] at hg0
    · exact ⟨s, h1, h2, h3⟩

/-- C10 (witness): the frame equations and the representative property
evaluated on a concrete one-document run. -/
theorem c10_witness :
    ((bookGroup.addFile "b2.xml").files = bookGroup.files ++ ["b2.xml"]
      ∧ (bookGroup.addFile "b2.xml").count = bookGroup.count + 1
      ∧ (bookGroup.addFile "b2.xml").skeleton = bookGroup.skeleton
      ∧ (bookGroup.addFile "b2.xml").example_structure = bookGroup.example_structure)
    ∧ (∃ s, firstOkWithHash (structureHash bookS) [bookDoc] = some s
        ∧ (StructureGroup.new bookS "b.xml").skeleton = s.toSkeleton
        ∧ (StructureGroup.new bookS "b.xml").example_structure = some s) :=
  ⟨c10_add_file_frame_and_first_representative.1 bookGroup "b2.xml",
   c10_add_file_frame_and_first_representative.2 [bookDoc] (structureHash bookS)
     (StructureGroup.new bookS "b.xml") rfl⟩

end XmlStructer
